import Mathlib

/-!
Verification of the generation-validate-execute pipeline of the code-modification
repository.  The Python sources embedded here (shallowly) are:

* `src/src/codeagent/dspy_modules/rope_script_generator.py`
  (`_clean_script`, `_validate_script`, `VALID_ROPE_MODULES`, the list-response
  normalization in `_generate_refactoring_script`);
* `src/codeagent/dspy_modules.py` (`_extract_script_from_response`);
* `src/src/codeagent/code_modifier.py`
  (`_execute_rope_script`, `_run_script_function`, `_get_relative_path`,
  `modify_file`, `generate_code`).

Strings are modelled as `List Char` (scripts handled by the pipeline are ASCII;
Python's `\s` and `str.strip()` are modelled over the six ASCII whitespace
characters).  Python `compile()` is an oracle parameter `compiles`, since the
Python grammar itself is outside the embedding; every theorem quantifies over it.
Calls into the remote model, module loading (which runs arbitrary code) and the
loaded entry points are likewise oracle parameters.
-/

set_option maxRecDepth 10000

/-- Python ASCII whitespace, as matched by `\s` in `re` and stripped by `str.strip()`:
space, tab, newline, carriage return, vertical tab, form feed. -/
def pyWS (c : Char) : Bool :=
  (c == ' ') || (c == '\t') || (c == '\n') || (c == '\r') ||
  (c == Char.ofNat 11) || (c == Char.ofNat 12)

/-- Drop the leading run of Python whitespace (the `\s*` after a matched literal,
and one half of `str.strip()`). -/
def dropWS : List Char → List Char
  | [] => []
  | c :: rest => if pyWS c then dropWS rest else c :: rest

/-- Python `str.strip()`: remove leading and trailing whitespace. -/
def trimL (l : List Char) : List Char :=
  (dropWS ((dropWS l).reverse)).reverse

/-- Whether `pat` occurs as a contiguous substring (Python `pat in s`). -/
def containsSub (pat : List Char) : List Char → Bool
  | [] => pat.isPrefixOf []
  | c :: rest => pat.isPrefixOf (c :: rest) || containsSub pat rest

/-- One pass of `re.sub(re.escape(pat) + "\s*", "", s)` for a literal pattern
`pat`: scan left to right; at each position where `pat` matches, delete it
together with the following (greedy) whitespace run and continue scanning after
the deleted region, exactly as `re.sub` does with non-overlapping matches.
`fuel` makes the recursion structural; it is always called with `fuel = s.length`,
which suffices because every step consumes at least one character. -/
def reSubA (pat : List Char) : Nat → List Char → List Char
  | _, [] => []
  | 0, s => s
  | fuel + 1, c :: rest =>
    if pat.isPrefixOf (c :: rest) then
      reSubA pat fuel (dropWS ((c :: rest).drop pat.length))
    else
      c :: reSubA pat fuel rest

/-- `re.sub(pat + "\s*", "", s)` for a literal `pat`. -/
def reSubL (pat s : List Char) : List Char :=
  reSubA pat s.length s

/-- Log line of `_clean_script` (rope_script_generator.py lines 250-259):
remove every occurrence of the fenced-python opener with trailing whitespace,
then every remaining fence marker with trailing whitespace, then strip. -/
def cleanScriptL (s : List Char) : List Char :=
  trimL (reSubL ("```".data) (reSubL ("```python".data) s))

-- Sanity checks (concrete behaviour of the embedding).
example : cleanScriptL ("```python\nx = 1\n```".data) = "x = 1".data := by decide
example : cleanScriptL ("  x = 1\n".data) = "x = 1".data := by decide

/-! The script validator (`_validate_script`, rope_script_generator.py
lines 261-315) and its import whitelist (lines 29-63). -/

/-- Fixed whitelist `VALID_ROPE_MODULES` of permitted rope sub-modules. -/
def validRopeModules : List (List Char) :=
  [ "rope.base.project".data
  , "rope.base.exceptions".data
  , "rope.base.change".data
  , "rope.base.codeanalyze".data
  , "rope.base.evaluate".data
  , "rope.base.fscommands".data
  , "rope.base.history".data
  , "rope.base.libutils".data
  , "rope.base.prefs".data
  , "rope.base.pycore".data
  , "rope.base.pynamesdef".data
  , "rope.base.pynames".data
  , "rope.base.pyobjectsdef".data
  , "rope.base.pyobjects".data
  , "rope.base.pyscopes".data
  , "rope.base.resourceobserver".data
  , "rope.base.resources".data
  , "rope.base.simplify".data
  , "rope.base.stdmods".data
  , "rope.base.taskhandle".data
  , "rope.base.worder".data
  , "rope.refactor.extract".data
  , "rope.refactor.inline".data
  , "rope.refactor.introduce_factory".data
  , "rope.refactor.method_object".data
  , "rope.refactor.move".data
  , "rope.refactor.occurrences".data
  , "rope.refactor.rename".data
  , "rope.refactor.restructure".data
  , "rope.refactor.usefunction".data
  , "rope.refactor.change_signature".data
  , "rope.contrib.codeassist".data
  , "rope.contrib.findit".data ]

/-- Membership in the whitelist (`module_name not in self.VALID_ROPE_MODULES`
is the negation of this). -/
def inWhitelist (m : List Char) : Bool := validRopeModules.contains m

/-- Literal substrings tested by the six textual rules of `_validate_script`. -/
def reqEntry : List Char := "def change_function(".data

def reqSig : List Char := "def change_function(project_path, file_path):".data

def reqImport : List Char := "from rope.base.project import Project".data

def reqProject : List Char := "project = Project(project_path)".data

def reqResource : List Char := "project.get_resource(file_path)".data

def reqReturn : List Char := "return ".data

/-- Whether a nonempty list starts with a Python whitespace character
(the mandatory `\s+` parts of the import regex). -/
def headIsWS : List Char → Bool
  | [] => false
  | c :: _ => pyWS c

/-- Attempt to match the regex `from\s+(rope\.\S+)\s+import` at the start of
`s` (as `re.finditer` tries at each position).  Returns the captured module
name (group 1) and the remainder of the string after the match.  The greedy
`\s+`/`\S+` runs are maximal munches; no backtracking is possible because the
character classes are complementary. -/
def tryImport (s : List Char) : Option (List Char × List Char) :=
  if ("from".data).isPrefixOf s then
    let s1 := s.drop 4
    if headIsWS s1 then
      let s2 := dropWS s1
      if ("rope.".data).isPrefixOf s2 then
        let s3 := s2.drop 5
        let nws := s3.takeWhile (fun c => !pyWS c)
        if nws.isEmpty then none
        else
          let s4 := s3.dropWhile (fun c => !pyWS c)
          if headIsWS s4 then
            let s5 := dropWS s4
            if ("import".data).isPrefixOf s5 then
              some ("rope.".data ++ nws, s5.drop 6)
            else none
          else none
      else none
    else none
  else none

/-- All captured module names of `re.finditer(r"from\s+(rope\.\S+)\s+import", s)`
in document order, with the standard non-overlapping continuation after each
match.  `fuel` makes the recursion structural; it is called with `s.length`,
which suffices since each step consumes at least one character. -/
def findImportsA : Nat → List Char → List (List Char)
  | _, [] => []
  | 0, _ => []
  | fuel + 1, c :: rest =>
    match tryImport (c :: rest) with
    | some (m, after) => m :: findImportsA fuel after
    | none => findImportsA fuel rest

def findImportsL (s : List Char) : List (List Char) :=
  findImportsA s.length s

/-- The validation failures `_validate_script` can raise, one per rule of the
structural contract, in the checked order.  Each corresponds to the
`ValueError` whose message names that rule. -/
inductive VErr where
  | missingChangeFunction : VErr
  | badSignature : VErr
  | missingProjectImport : VErr
  | noProjectConstruction : VErr
  | noGetResource : VErr
  | noReturn : VErr
  | invalidImport : List Char → VErr
  | syntaxError : VErr
deriving DecidableEq, Repr

/-- Position of each error kind in the checked order of `_validate_script`. -/
def ruleOf : VErr → Nat
  | .missingChangeFunction => 1
  | .badSignature => 2
  | .missingProjectImport => 3
  | .noProjectConstruction => 4
  | .noGetResource => 5
  | .noReturn => 6
  | .invalidImport _ => 7
  | .syntaxError => 8

/-- The validator `_validate_script`: `none` means the script is accepted
silently; `some e` means a `ValueError` identifying rule `e` is raised.  The
`Assert` helper raises on the first false condition, so the checks short
circuit in source order; `compile(script, "<string>", "exec")` is the oracle
`compiles`. -/
def validateScript (compiles : List Char → Bool) (s : List Char) : Option VErr :=
  if containsSub reqEntry s = false then some .missingChangeFunction
  else if containsSub reqSig s = false then some .badSignature
  else if containsSub reqImport s = false then some .missingProjectImport
  else if containsSub reqProject s = false then some .noProjectConstruction
  else if containsSub reqResource s = false then some .noGetResource
  else if containsSub reqReturn s = false then some .noReturn
  else
    match (findImportsL s).find? (fun m => !(inWhitelist m)) with
    | some m => some (.invalidImport m)
    | none => if compiles s = false then some .syntaxError else none

/-- Specification-side description of rule `k` being violated, following the
eight numbered rules of the spec's ordered checklist. -/
def ruleViolatedB (compiles : List Char → Bool) (s : List Char) : Nat → Bool
  | 1 => !(containsSub reqEntry s)
  | 2 => !(containsSub reqSig s)
  | 3 => !(containsSub reqImport s)
  | 4 => !(containsSub reqProject s)
  | 5 => !(containsSub reqResource s)
  | 6 => !(containsSub reqReturn s)
  | 7 => ((findImportsL s).find? (fun m => !(inWhitelist m))).isSome
  | 8 => !(compiles s)
  | _ => false

/-- Specification-side "first violated rule in the checked order": the least
rule number among 1..8 whose violation predicate holds, if any. -/
def firstViolatedRule (compiles : List Char → Bool) (s : List Char) : Option Nat :=
  if ruleViolatedB compiles s 1 then some 1
  else if ruleViolatedB compiles s 2 then some 2
  else if ruleViolatedB compiles s 3 then some 3
  else if ruleViolatedB compiles s 4 then some 4
  else if ruleViolatedB compiles s 5 then some 5
  else if ruleViolatedB compiles s 6 then some 6
  else if ruleViolatedB compiles s 7 then some 7
  else if ruleViolatedB compiles s 8 then some 8
  else none

example : validateScript (fun _ => true) ("x = 1".data) = some VErr.missingChangeFunction := by
  decide

/-! Response normalization.  The repository has two normalizers: the active
pipeline's (rope_script_generator.py lines 172-178, list handling plus
`_clean_script`) and the legacy `_extract_script_from_response`
(src/codeagent/dspy_modules.py lines 67-83). -/

/-- A provider response value: a string, a list of strings, or some other
object (modelled by its truthiness and its `str()` representation). -/
inductive PyResp where
  | strv : String → PyResp
  | listv : List String → PyResp
  | otherv : Bool → String → PyResp
deriving DecidableEq, Repr

/-- Python `sep.join(parts)`. -/
def pyJoin (sep : List Char) : List (List Char) → List Char
  | [] => []
  | [x] => x
  | x :: y :: rest => x ++ sep ++ pyJoin sep (y :: rest)

/-- The string coercion at rope_script_generator.py lines 172-175:
a list is joined with newlines; any other non-string is `str()`-ed. -/
def ensureString : PyResp → List Char
  | .strv s => s.data
  | .listv l => pyJoin ['\n'] (l.map String.data)
  | .otherv _ s => s.data

/-- Python `s.split(pat, 1)` for a nonempty literal `pat`, as the pair
(before, after) when `pat` occurs, and `none` otherwise. -/
def splitOnceA (pat : List Char) : List Char → Option (List Char × List Char)
  | [] => none
  | c :: rest =>
    if pat.isPrefixOf (c :: rest) then some ([], (c :: rest).drop pat.length)
    else
      match splitOnceA pat rest with
      | some (b, a) => some (c :: b, a)
      | none => none

/-- The legacy normalizer `_extract_script_from_response`
(src/codeagent/dspy_modules.py lines 67-83). -/
def extractScriptFromResponse : PyResp → List Char
  | .listv [] => []
  | .listv (x :: _) => x.data
  | .strv s =>
    match splitOnceA ("```python".data) s.data with
    | some (_, after) =>
      match splitOnceA ("```".data) after with
      | some (between, _) => trimL between
      | none =>
        match splitOnceA ("```".data) s.data with
        | some (_, after2) =>
          match splitOnceA ("```".data) after2 with
          | some (between2, _) => trimL between2
          | none => trimL after2
        | none => s.data
    | none =>
      match splitOnceA ("```".data) s.data with
      | some (_, after2) =>
        match splitOnceA ("```".data) after2 with
        | some (between2, _) => trimL between2
        | none => trimL after2
      | none => s.data
  | .otherv falsy s => if falsy then [] else s.data

/-! Path resolution (`_get_relative_path`, code_modifier.py lines 105-122),
over POSIX paths.  A path splits into an is-absolute anchor and its
components; `pathlib` drops empty and single-dot components. -/

def splitSlashA : List Char → List Char → List (List Char)
  | acc, [] => [acc.reverse]
  | acc, c :: rest =>
    if c = '/' then acc.reverse :: splitSlashA [] rest
    else splitSlashA (c :: acc) rest

def isAbsL : List Char → Bool
  | '/' :: _ => true
  | _ => false

/-- Parse a path as `pathlib.PurePosixPath` does: anchor plus parts. -/
def splitPathL (p : List Char) : Bool × List (List Char) :=
  (isAbsL p, (splitSlashA [] p).filter (fun s => !(s.isEmpty) && !(s == ['.'])))

/-- `PurePosixPath(p).relative_to(q)`: requires `q`'s anchor-plus-parts to be
a prefix of `p`'s, else raises `ValueError` (here `none`). -/
def relativeTo (p q : Bool × List (List Char)) : Option (List (List Char)) :=
  if p.1 == q.1 && q.2.isPrefixOf p.2 then some (p.2.drop q.2.length) else none

def joinSlash : List (List Char) → List Char
  | [] => []
  | [x] => x
  | x :: y :: rest => x ++ '/' :: joinSlash (y :: rest)

/-- `str()` of a relative `PurePosixPath` with the given parts. -/
def fmtRel (parts : List (List Char)) : List Char :=
  if parts.isEmpty then ['.'] else joinSlash parts

/-- `os.path.normpath` on the parts of an absolute path: a `..` component pops
the previous component (and disappears at the root). -/
def normAbs (parts : List (List Char)) : List (List Char) :=
  parts.foldl (fun acc comp => if comp == ['.', '.'] then acc.dropLast else acc ++ [comp]) []

/-- Parts of `os.path.abspath(p)` given the parts of the current working
directory (assumed absolute and already normalized, as the OS guarantees). -/
def absParts (cwd : List (List Char)) (p : List Char) : List (List Char) :=
  let sp := splitPathL p
  normAbs (if sp.1 then sp.2 else cwd ++ sp.2)

def commonLen : List (List Char) → List (List Char) → Nat
  | x :: xs, y :: ys => if x == y then commonLen xs ys + 1 else 0
  | _, _ => 0

/-- `os.path.relpath(path, start)` (posixpath): both arguments are made
absolute against the current working directory, the common prefix is dropped,
and one `..` per remaining `start` component is prepended. -/
def relpathL (cwd : List (List Char)) (path start : List Char) : List Char :=
  let pp := absParts cwd path
  let sp := absParts cwd start
  let i := commonLen pp sp
  let rel := List.replicate (sp.length - i) ['.', '.'] ++ pp.drop i
  if rel.isEmpty then ['.'] else joinSlash rel

/-- `_get_relative_path`: strict containment-relative resolution via
`pathlib.relative_to` first, falling back to `os.path.relpath` (which depends
on the process working directory `cwd`). -/
def getRelativePathL (cwd : List (List Char)) (file_path project_path : List Char) :
    List Char :=
  match relativeTo (splitPathL file_path) (splitPathL project_path) with
  | some parts => fmtRel parts
  | none => relpathL cwd file_path project_path

/-! The loader, dispatcher and orchestrator (code_modifier.py). -/

/-- The error kinds observable from `CodeModifierAgent`.  Everything the code
raises is a `ValueError`; the kinds are distinguished by message shape:
`validation e` comes from `_validate_script`, `missingEntryPoint` from
`_run_script_function`, `raised n` abstracts any other exception (load
failures and exceptions thrown by entry points), and `execWrapped tmp e` is
the `ValueError` raised by `_execute_rope_script`'s generic handler, naming
the transient file and embedding the inner error. -/
inductive Err where
  | validation : VErr → Err
  | missingEntryPoint : Err
  | raised : Nat → Err
  | execWrapped : List Char → Err → Err
deriving DecidableEq, Repr

/-- The generator call `RopeScriptGenerator.__call__` on the refactoring path
(rope_script_generator.py lines 112-183): the raw provider response is
coerced to a string, cleaned, and validated; a validation failure raises its
`ValueError` before anything is returned. -/
def ropeScriptGeneratorCall (compiles : List Char → Bool) (raw : PyResp) :
    Except Err (List Char) :=
  let script := cleanScriptL (ensureString raw)
  match validateScript compiles script with
  | some e => .error (.validation e)
  | none => .ok script

/-- A loaded script module, with the two optional entry-point attributes the
dispatcher probes with `hasattr`.  An entry point may return a value or raise. -/
structure PyModule (α : Type) where
  change_function : Option (List Char → List Char → Except Err α)
  refactor_code : Option (List Char → List Char → Except Err α)

/-- `_run_script_function` (code_modifier.py lines 124-145): dispatch on the
two entry-point names in fixed priority order, passing the result through
unchanged; raise the missing-entry-point `ValueError` when neither exists. -/
def runScriptFunction {α : Type} (m : PyModule α) (project_path file_path : List Char) :
    Except Err α :=
  match m.change_function with
  | some f => f project_path file_path
  | none =>
    match m.refactor_code with
    | some g => g project_path file_path
    | none => .error .missingEntryPoint

/-- Filesystem-visible effects of one pipeline invocation, in order. -/
inductive FsEff where
  | read : List Char → FsEff
  | create : List Char → FsEff
  | loadModule : List Char → FsEff
  | runEntry : FsEff
  | delete : List Char → FsEff
  | createDir : List Char → FsEff
  | removeTree : List Char → FsEff
deriving DecidableEq, Repr

/-- `_execute_rope_script` (code_modifier.py lines 48-83).  `tmp` is the
unique name `mkstemp` returns; `loader` abstracts `_load_module_from_file`
(which executes the script's top level and may raise); the filesystem is the
list of existing paths.  Any exception from loading or dispatch is re-raised
wrapped as the execution error naming the transient file, and the `finally`
block unlinks the transient file on every path. -/
def executeRopeScript {α : Type} (loader : List Char → Except Err (PyModule α))
    (script project_path file_path tmp : List Char) (cwd : List (List Char))
    (fs : List (List Char)) :
    Except Err α × List (List Char) × List FsEff :=
  let fs1 := tmp :: fs
  match loader script with
  | .error e => (.error (.execWrapped tmp e), fs1.erase tmp,
      [.create tmp, .loadModule tmp, .delete tmp])
  | .ok m =>
    let rel := getRelativePathL cwd file_path project_path
    match runScriptFunction m project_path rel with
    | .error e => (.error (.execWrapped tmp e), fs1.erase tmp,
        [.create tmp, .loadModule tmp, .runEntry, .delete tmp])
    | .ok v => (.ok v, fs1.erase tmp, [.create tmp, .loadModule tmp, .runEntry, .delete tmp])

/-- `os.path.dirname(os.path.abspath(p))`, used for the default project path. -/
def dirnameAbsL (cwd : List (List Char)) (p : List Char) : List Char :=
  '/' :: joinSlash ((absParts cwd p).dropLast)

/-- `modify_file` (code_modifier.py lines 19-46): read the target file, run
the generator (any generation or validation error propagates before any
further filesystem effect), default the project path to the file's directory,
then execute the script. -/
def modifyFile {α : Type} (generator : Except Err (List Char))
    (loader : List Char → Except Err (PyModule α))
    (file_path : List Char) (projectPathOpt : Option (List Char)) (tmp : List Char)
    (cwd : List (List Char)) (fs : List (List Char)) :
    Except Err α × List (List Char) × List FsEff :=
  match generator with
  | .error e => (.error e, fs, [FsEff.read file_path])
  | .ok script =>
    let pp := match projectPathOpt with
      | some p => p
      | none => dirnameAbsL cwd file_path
    let r := executeRopeScript loader script pp file_path tmp cwd fs
    (r.1, r.2.1, FsEff.read file_path :: r.2.2)

/-- `generate_code` (code_modifier.py lines 147-174): run the generator (a
failure propagates before the staging directory exists), create the transient
project directory `dir` and the empty placeholder file inside it, execute the
script against the staged file, and remove the directory and its contents on
every path (`tempfile.TemporaryDirectory`). -/
def generateCode {α : Type} (generator : Except Err (List Char))
    (loader : List Char → Except Err (PyModule α))
    (dir tmp : List Char) (cwd : List (List Char)) (fs : List (List Char)) :
    Except Err α × List (List Char) × List FsEff :=
  match generator with
  | .error e => (.error e, fs, [])
  | .ok script =>
    let staged := dir ++ "/generated_code.py".data
    let fs2 := staged :: dir :: fs
    let r := executeRopeScript loader script dir staged tmp cwd fs2
    (r.1, (r.2.1).filter (fun p => !(p == dir) && !((dir ++ ['/']).isPrefixOf p)),
      FsEff.createDir dir :: FsEff.create staged :: r.2.2 ++ [FsEff.removeTree dir])

example : getRelativePathL [] ("/proj/sub/file.py".data) ("/proj".data) = "sub/file.py".data := by
  decide

/-! Basic lemmas about the string-rewriting primitives. -/

theorem isPrefixOf_iff (p : List Char) : ∀ l : List Char,
    p.isPrefixOf l = true ↔ ∃ t, l = p ++ t := by
  induction p with
  | nil => intro l; simp [List.isPrefixOf]
  | cons a as ih =>
    intro l
    cases l with
    | nil => simp [List.isPrefixOf]
    | cons b bs =>
      simp only [List.isPrefixOf, Bool.and_eq_true, beq_iff_eq, ih bs]
      constructor
      · rintro ⟨rfl, t, rfl⟩; exact ⟨t, rfl⟩
      · rintro ⟨t, h⟩
        cases h
        exact ⟨rfl, t, rfl⟩

theorem isPrefixOf_append_self (a b : List Char) : a.isPrefixOf (a ++ b) = true :=
  (isPrefixOf_iff a (a ++ b)).mpr ⟨b, rfl⟩

theorem containsSub_iff (pat : List Char) : ∀ s : List Char,
    containsSub pat s = true ↔ ∃ r t, s = r ++ pat ++ t := by
  intro s
  induction s with
  | nil =>
    simp only [containsSub, isPrefixOf_iff]
    constructor
    · rintro ⟨t, h⟩; exact ⟨[], t, h⟩
    · rintro ⟨r, t, h⟩
      rcases List.append_eq_nil.mp (List.append_eq_nil.mp h.symm).1 with ⟨h1, h2⟩
      exact ⟨t, by simp [h2, (List.append_eq_nil.mp h.symm).2]⟩
  | cons c rest ih =>
    simp only [containsSub, Bool.or_eq_true, isPrefixOf_iff, ih]
    constructor
    · rintro (⟨t, h⟩ | ⟨r, t, h⟩)
      · exact ⟨[], t, by simp [h]⟩
      · exact ⟨c :: r, t, by simp [h]⟩
    · rintro ⟨r, t, h⟩
      cases r with
      | nil => exact Or.inl ⟨t, by simpa using h⟩
      | cons x rs =>
        rcases List.cons.injEq .. ▸ h with ⟨rfl, h2⟩
        exact Or.inr ⟨rs, t, by simpa using h2⟩

/-- If the pattern occurs nowhere, the substitution is the identity. -/
theorem reSubA_id (pat : List Char) : ∀ (fuel : Nat) (s : List Char),
    containsSub pat s = false → reSubA pat fuel s = s := by
  intro fuel
  induction fuel with
  | zero => intro s _; cases s <;> rfl
  | succ f ih =>
    intro s h
    cases s with
    | nil => rfl
    | cons c rest =>
      simp only [containsSub, Bool.or_eq_false_iff] at h
      simp only [reSubA, h.1, Bool.false_eq_true, if_false]
      rw [ih rest h.2]

theorem dropWS_length : ∀ l : List Char, (dropWS l).length ≤ l.length := by
  intro l
  induction l with
  | nil => simp [dropWS]
  | cons c rest ih =>
    simp only [dropWS]
    split
    · exact Nat.le_trans ih (Nat.le_succ _)
    · simp

/-- Sufficient fuel makes `reSubA` independent of the exact fuel value. -/
theorem reSubA_fuel (pat : List Char) (hp : pat ≠ []) :
    ∀ (f1 f2 : Nat) (s : List Char), s.length ≤ f1 → s.length ≤ f2 →
      reSubA pat f1 s = reSubA pat f2 s := by
  intro f1
  induction f1 with
  | zero =>
    intro f2 s h1 _
    rcases List.eq_nil_of_length_eq_zero (Nat.le_zero.mp h1) with rfl
    cases f2 <;> rfl
  | succ f ih =>
    intro f2 s h1 h2
    cases s with
    | nil => cases f2 <;> rfl
    | cons c rest =>
      cases f2 with
      | zero => exact absurd h2 (by simp)
      | succ f2x =>
        simp only [reSubA]
        split
        · apply ih
          · calc (dropWS ((c :: rest).drop pat.length)).length
                ≤ ((c :: rest).drop pat.length).length := dropWS_length _
              _ ≤ rest.length := by
                  simp only [List.length_drop, List.length_cons]
                  have : 1 ≤ pat.length := by
                    cases pat with
                    | nil => exact absurd rfl hp
                    | cons _ _ => simp
                  omega
              _ ≤ f := by simpa using h1
          · calc (dropWS ((c :: rest).drop pat.length)).length
                ≤ ((c :: rest).drop pat.length).length := dropWS_length _
              _ ≤ rest.length := by
                  simp only [List.length_drop, List.length_cons]
                  have : 1 ≤ pat.length := by
                    cases pat with
                    | nil => exact absurd rfl hp
                    | cons _ _ => simp
                  omega
              _ ≤ f2x := by simpa using h2
        · rw [ih f2x rest (by simpa using h1) (by simpa using h2)]

theorem dropWS_idem (l : List Char) : dropWS (dropWS l) = dropWS l := by
  induction l with
  | nil => rfl
  | cons c rest ih =>
    cases hc : pyWS c with
    | true => simpa [dropWS, hc] using ih
    | false => simp [dropWS, hc]

theorem dropWS_head : ∀ (l : List Char) (c : Char) (t : List Char),
    dropWS l = c :: t → pyWS c = false := by
  intro l
  induction l with
  | nil => intro c t h; simp [dropWS] at h
  | cons x rest ih =>
    intro c t h
    cases hx : pyWS x with
    | true => exact ih c t (by simpa [dropWS, hx] using h)
    | false =>
      simp [dropWS, hx] at h
      rcases h with ⟨rfl, -⟩
      exact hx

theorem dropWS_eq_drop : ∀ l : List Char, ∃ k, dropWS l = l.drop k := by
  intro l
  induction l with
  | nil => exact ⟨0, rfl⟩
  | cons c rest ih =>
    cases hc : pyWS c with
    | true =>
      rcases ih with ⟨k, hk⟩
      exact ⟨k + 1, by simp [dropWS, hc, hk]⟩
    | false => exact ⟨0, by simp [dropWS, hc]⟩

theorem dropWS_append : ∀ a b : List Char,
    dropWS (a ++ b) = if dropWS a = [] then dropWS b else dropWS a ++ b := by
  intro a b
  induction a with
  | nil => simp [dropWS]
  | cons c a' ih =>
    cases hc : pyWS c with
    | true => simpa [dropWS, hc] using ih
    | false => simp [dropWS, hc]

theorem containsSub_of_take (pat s : List Char) (k : Nat)
    (h : containsSub pat (s.take k) = true) : containsSub pat s = true := by
  rcases (containsSub_iff pat _).mp h with ⟨r, t, hrt⟩
  refine (containsSub_iff pat s).mpr ⟨r, t ++ s.drop k, ?_⟩
  conv_lhs => rw [← List.take_append_drop k s]
  rw [hrt]
  simp [List.append_assoc]

theorem containsSub_of_drop (pat s : List Char) (k : Nat)
    (h : containsSub pat (s.drop k) = true) : containsSub pat s = true := by
  rcases (containsSub_iff pat _).mp h with ⟨r, t, hrt⟩
  refine (containsSub_iff pat s).mpr ⟨s.take k ++ r, t, ?_⟩
  conv_lhs => rw [← List.take_append_drop k s]
  rw [hrt]
  simp [List.append_assoc]

/-- If no match starts strictly inside `a` (or straddling into `b`), the
substitution passes over `a` untouched and continues on `b`. -/
theorem reSubA_append (pat : List Char) (hp : pat ≠ []) :
    ∀ (a b : List Char) (fuel : Nat), (a ++ b).length ≤ fuel →
      (∀ a1 a2, a = a1 ++ a2 → a2 ≠ [] → pat.isPrefixOf (a2 ++ b) = false) →
      reSubA pat fuel (a ++ b) = a ++ reSubA pat b.length b := by
  intro a
  induction a with
  | nil =>
    intro b fuel hfuel _
    simpa using reSubA_fuel pat hp fuel b.length b (by simpa using hfuel) (le_refl _)
  | cons c a' ih =>
    intro b fuel hfuel h
    cases fuel with
    | zero => exact absurd hfuel (by simp)
    | succ f =>
      have hc : pat.isPrefixOf ((c :: a') ++ b) = false :=
        h [] (c :: a') rfl (by simp)
      simp only [List.cons_append, reSubA, List.append_eq]
      rw [List.cons_append] at hc
      simp only [hc, Bool.false_eq_true, if_false]
      rw [ih b f (by simpa using Nat.le_of_succ_le_succ hfuel)
        (fun a1 a2 ha hne => h (c :: a1) a2 (by simp [ha]) hne)]

/-- A match at the very start of the string consumes the pattern and the
following whitespace run. -/
theorem reSubA_head (pat : List Char) (hp : pat ≠ []) (f : Nat) (rest : List Char) :
    reSubA pat (f + 1) (pat ++ rest) = reSubA pat f (dropWS rest) := by
  cases pat with
  | nil => exact absurd rfl hp
  | cons p ps =>
    have hpre : (p :: ps).isPrefixOf ((p :: ps) ++ rest) = true :=
      isPrefixOf_append_self _ _
    rw [List.cons_append] at hpre
    simp only [List.cons_append, reSubA, List.append_eq, hpre, if_true]
    congr 1
    simp only [List.length_cons, List.drop_succ_cons]
    rw [List.drop_left]

theorem reSubL_head (pat : List Char) (hp : pat ≠ []) (rest : List Char) :
    reSubL pat (pat ++ rest) = reSubA pat rest.length (dropWS rest) := by
  have hp1 : 1 ≤ pat.length := List.length_pos.mpr hp
  have h1 : (pat ++ rest).length = (pat.length - 1 + rest.length) + 1 := by
    simp only [List.length_append]; omega
  unfold reSubL
  rw [h1, reSubA_head pat hp _ rest]
  exact reSubA_fuel pat hp _ _ _
    (Nat.le_trans (dropWS_length rest) (by omega)) (dropWS_length rest)

/-- If the plain fence marker occurs nowhere in `A`, then the python fence
opener occurs nowhere in `A` followed by a closing fence: an occurrence would
have to start at least five characters before the end, so its first three
characters would be a fence occurrence inside `A`. -/
theorem noPyFence_of_noFence (A : List Char)
    (h : containsSub ("```".data) A = false) :
    containsSub ("```python".data) (A ++ '\n' :: "```".data) = false := by
  cases hocc : containsSub ("```python".data) (A ++ '\n' :: "```".data) with
  | false => rfl
  | true =>
    exfalso
    rcases (containsSub_iff _ _).mp hocc with ⟨r, t, heq⟩
    have h3 : ("```".data).length = 3 := rfl
    have h9 : ("```python".data).length = 9 := rfl
    have hlen := congrArg List.length heq
    simp only [List.length_append, List.length_cons, h3, h9] at hlen
    have hle : r.length + 3 ≤ A.length := by omega
    have hsplit9 : "```python".data = "```".data ++ "python".data := rfl
    have heq2 : (A.take (r.length + 3)) ++ (A.drop (r.length + 3) ++ '\n' :: "```".data)
        = (r ++ "```".data) ++ ("python".data ++ t) := by
      rw [← List.append_assoc, List.take_append_drop, heq, hsplit9]
      simp [List.append_assoc]
    have htl : (A.take (r.length + 3)).length = (r ++ "```".data).length := by
      simp only [List.length_take, List.length_append, h3]
      omega
    have htake := (List.append_inj heq2 htl).1
    have : containsSub ("```".data) A = true := by
      refine (containsSub_iff _ _).mpr ⟨r, A.drop (r.length + 3), ?_⟩
      conv_lhs => rw [← List.take_append_drop (r.length + 3) A]
      rw [htake]
    rw [this] at h
    exact Bool.true_eq_false.mp h

/-- Side condition for passing the plain-fence substitution over a fence-free
prefix followed by a newline: the fence pattern cannot match starting inside
`A ++ ['\n']`. -/
theorem fence_nomatch_side (A : List Char)
    (h : containsSub ("```".data) A = false) :
    ∀ a1 a2, A ++ ['\n'] = a1 ++ a2 → a2 ≠ [] →
      ("```".data).isPrefixOf (a2 ++ "```".data) = false := by
  intro a1 a2 hsplit hne
  cases hpf : ("```".data).isPrefixOf (a2 ++ "```".data) with
  | false => rfl
  | true =>
    exfalso
    rcases (isPrefixOf_iff _ _).mp hpf with ⟨u, hu⟩
    have hlen := congrArg List.length hsplit
    simp only [List.length_append, List.length_cons, List.length_nil] at hlen
    have ha2pos : 1 ≤ a2.length := List.length_pos.mpr hne
    have ha1 : a1.length ≤ A.length := by omega
    have ha2 : a2 = A.drop a1.length ++ ['\n'] := by
      have hd := congrArg (List.drop a1.length) hsplit
      rw [List.drop_left] at hd
      rw [List.drop_append_eq_append_drop, Nat.sub_eq_zero_of_le ha1] at hd
      simpa using hd.symm
    have hu2 : (A.drop a1.length) ++ '\n' :: "```".data = "```".data ++ u := by
      rw [ha2] at hu
      rw [← hu]
      simp [List.append_assoc]
    by_cases hd3 : 3 ≤ (A.drop a1.length).length
    · -- the fence fits entirely inside A: contradiction with `h`
      have htk := congrArg (List.take 3) hu2
      rw [List.take_append_eq_append_take, List.take_append_eq_append_take] at htk
      rw [Nat.sub_eq_zero_of_le hd3] at htk
      have h33 : 3 - ("```".data).length = 0 := rfl
      rw [h33, List.take_zero, List.take_zero, List.append_nil, List.append_nil] at htk
      have hftk : ("```".data).take 3 = "```".data := rfl
      rw [hftk] at htk
      have : containsSub ("```".data) A = true := by
        refine (containsSub_iff _ _).mpr ⟨A.take a1.length, (A.drop a1.length).drop 3, ?_⟩
        conv_lhs => rw [← List.take_append_drop a1.length A]
        conv_lhs => rw [← List.take_append_drop 3 (A.drop a1.length)]
        rw [htk, List.append_assoc]
      rw [this] at h
      exact Bool.true_eq_false.mp h
    · -- the fence would have to contain the newline: impossible
      push_neg at hd3
      have htk := congrArg (List.take ((A.drop a1.length).length + 1)) hu2
      rw [List.take_append_eq_append_take, List.take_append_eq_append_take] at htk
      rw [List.take_of_length_le (Nat.le_succ _)] at htk
      rw [Nat.add_sub_cancel_left] at htk
      have hn1 : ('\n' :: "```".data).take 1 = ['\n'] := rfl
      rw [hn1] at htk
      have hz : (A.drop a1.length).length + 1 - ("```".data).length = 0 := by
        rw [show ("```".data).length = 3 from rfl]; omega
      rw [hz, List.take_zero, List.append_nil] at htk
      have hmem : '\n' ∈ ("```".data).take ((A.drop a1.length).length + 1) := by
        rw [← htk]
        exact List.mem_append_right _ (by simp)
      have : '\n' ∈ "```".data := List.take_subset _ _ hmem
      exact absurd this (by decide)

theorem trimL_dropWS_newline (S : List Char) (h : ¬ dropWS S = []) :
    trimL (dropWS S ++ ['\n']) = trimL S := by
  unfold trimL
  rw [dropWS_append, dropWS_idem, if_neg h]
  rw [List.reverse_append]
  have hrev : (['\n'] : List Char).reverse = ['\n'] := rfl
  rw [hrev, List.singleton_append]
  have hws : pyWS '\n' = true := rfl
  simp only [dropWS, hws, if_true]

/-- Amended C7. For every script `S` that does not itself contain the fence
marker, cleaning the fence-wrapped response yields exactly `S` with surrounding
whitespace stripped.  (The unamended claim, quantifying over all `S`, fails
when `S` contains fence markers, since `_clean_script` deletes every occurrence;
see the counterexample.) -/
theorem normalizer_fence_roundtrip (S : List Char)
    (hS : containsSub ("```".data) S = false) :
    cleanScriptL ("```python".data ++ '\n' :: (S ++ '\n' :: "```".data)) = trimL S := by
  have hp9 : ("```python".data : List Char) ≠ [] := by decide
  have hp3 : ("```".data : List Char) ≠ [] := by decide
  unfold cleanScriptL
  rw [reSubL_head _ hp9]
  have hws : pyWS '\n' = true := rfl
  rw [show dropWS ('\n' :: (S ++ '\n' :: "```".data)) = dropWS (S ++ '\n' :: "```".data) from by
    simp only [dropWS, hws, if_true]]
  rw [dropWS_append]
  by_cases h1 : dropWS S = []
  · rw [if_pos h1]
    have hdrop : dropWS ('\n' :: "```".data) = "```".data := by decide
    rw [hdrop]
    rw [reSubA_id _ _ _ (by decide)]
    have hR : trimL S = [] := by
      unfold trimL
      rw [h1]
      rfl
    rw [hR]
    decide
  · rw [if_neg h1]
    have hS1 : containsSub ("```".data) (dropWS S) = false := by
      rcases dropWS_eq_drop S with ⟨k, hk⟩
      rw [hk]
      cases hcd : containsSub ("```".data) (S.drop k) with
      | false => rfl
      | true =>
        rw [containsSub_of_drop _ _ _ hcd] at hS
        exact absurd hS (by simp)
    rw [reSubA_id _ _ _ (noPyFence_of_noFence (dropWS S) hS1)]
    rw [List.append_cons (dropWS S) '\n' ("```".data)]
    unfold reSubL
    rw [reSubA_append ("```".data) hp3 (dropWS S ++ ['\n']) ("```".data) _ (le_refl _)
      (fence_nomatch_side (dropWS S) hS1)]
    have hf3 : reSubA ("```".data) (("```".data).length) ("```".data) = [] := by decide
    rw [hf3, List.append_nil]
    exact trimL_dropWS_newline S h1

/-- Counterexample to C7 as stated: for the script `S` consisting of a fence
marker itself, normalizing the fence-wrapped string does not return `S`
trimmed (the cleaner deletes every fence occurrence, yielding the empty
string). -/
theorem normalizer_fence_roundtrip_cex :
    cleanScriptL ("```python".data ++ '\n' :: ("```".data ++ '\n' :: "```".data)) ≠
      trimL ("```".data) := by decide

/-- Witness for the amended C7 at the concrete script `print(1)`. -/
theorem normalizer_fence_roundtrip_witness :
    cleanScriptL ("```python".data ++ '\n' :: ("print(1)".data ++ '\n' :: "```".data)) =
      trimL ("print(1)".data) :=
  normalizer_fence_roundtrip ("print(1)".data) (by decide)


theorem containsSub_mono_pat (p q s : List Char)
    (h : containsSub (p ++ q) s = true) : containsSub p s = true := by
  rcases (containsSub_iff _ _).mp h with ⟨r, t, hrt⟩
  refine (containsSub_iff _ _).mpr ⟨r, q ++ t, ?_⟩
  rw [hrt]
  simp [List.append_assoc]

theorem take_cons_head : ∀ (A : List Char) (m : Nat) (c : Char) (t : List Char),
    A.take m = c :: t → ∃ u, A = c :: u := by
  intro A m c t h
  cases A with
  | nil => simp at h
  | cons a as =>
    cases m with
    | zero => simp at h
    | succ m1 =>
      rw [List.take_succ_cons] at h
      injection h with h1 h2
      exact ⟨as, by rw [h1]⟩

/-- The trimmed string is an initial segment of a final segment of the
original, so it contains no occurrence of a pattern the original lacks. -/
theorem containsSub_trimL (pat S : List Char) (h : containsSub pat S = false) :
    containsSub pat (trimL S) = false := by
  cases hc : containsSub pat (trimL S) with
  | false => rfl
  | true =>
    exfalso
    rcases dropWS_eq_drop S with ⟨k1, hk1⟩
    rcases dropWS_eq_drop ((dropWS S).reverse) with ⟨k2, hk2⟩
    have ht : trimL S = (dropWS S).take ((dropWS S).length - k2) := by
      unfold trimL
      rw [hk2, List.reverse_drop, List.reverse_reverse, List.length_reverse]
    rw [ht, hk1] at hc
    have h1 := containsSub_of_take pat _ _ hc
    have h2 := containsSub_of_drop pat _ _ h1
    rw [h2] at h
    exact Bool.true_eq_false.mp h

theorem dropWS_trimL (S : List Char) : dropWS (trimL S) = trimL S := by
  rcases dropWS_eq_drop ((dropWS S).reverse) with ⟨k2, hk2⟩
  have ht : trimL S = (dropWS S).take ((dropWS S).length - k2) := by
    unfold trimL
    rw [hk2, List.reverse_drop, List.reverse_reverse, List.length_reverse]
  cases hts : trimL S with
  | nil => rfl
  | cons c t =>
    rw [ht] at hts
    rcases take_cons_head _ _ _ _ hts with ⟨u, hu⟩
    have hc : pyWS c = false := dropWS_head S c u hu
    simp [dropWS, hc]

theorem trimL_idem (S : List Char) : trimL (trimL S) = trimL S := by
  have h1 : dropWS (trimL S) = trimL S := dropWS_trimL S
  have h2 : (trimL S).reverse = dropWS ((dropWS S).reverse) := by
    unfold trimL
    rw [List.reverse_reverse]
  calc trimL (trimL S) = (dropWS ((dropWS (trimL S)).reverse)).reverse := rfl
    _ = (dropWS (dropWS ((dropWS S).reverse))).reverse := by rw [h1, h2]
    _ = (dropWS ((dropWS S).reverse)).reverse := by rw [dropWS_idem]
    _ = trimL S := rfl

/-- Amended C9. On a fence-free script containing the required entry-point
definition line, `_clean_script` acts as `str.strip()`: it returns the script
with surrounding whitespace removed (so it is the identity exactly on already
stripped scripts, not on all of them), and it is idempotent on such scripts.
(The unamended claim, `normalize(S) = S` for all such `S`, fails for scripts
with leading or trailing whitespace; see the counterexample.) -/
theorem normalizer_plain_identity (S : List Char)
    (_hdef : containsSub ("def change_function(project_path, file_path):".data) S = true)
    (hfence : containsSub ("```".data) S = false) :
    cleanScriptL S = trimL S ∧ cleanScriptL (cleanScriptL S) = cleanScriptL S ∧
      (trimL S = S → cleanScriptL S = S) := by
  have key : ∀ T : List Char, containsSub ("```".data) T = false → cleanScriptL T = trimL T := by
    intro T hT
    have hfp : containsSub ("```python".data) T = false := by
      cases hc : containsSub ("```python".data) T with
      | false => rfl
      | true =>
        have heq : ("```".data ++ "python".data : List Char) = "```python".data := rfl
        have := containsSub_mono_pat ("```".data) ("python".data) T (by rw [heq]; exact hc)
        rw [this] at hT
        exact absurd hT (by simp)
    unfold cleanScriptL reSubL
    rw [reSubA_id _ _ _ hfp, reSubA_id _ _ _ hT]
  refine ⟨key S hfence, ?_, ?_⟩
  · rw [key S hfence, key (trimL S) (containsSub_trimL _ _ hfence)]
    exact trimL_idem S
  · intro h
    rw [key S hfence, h]

/-- Counterexample to C9 as stated: a fence-free script carrying the required
definition line plus a trailing newline is not a fixed point of the
normalizer, because `_clean_script` ends with `str.strip()`. -/
theorem normalizer_plain_identity_cex :
    cleanScriptL ("def change_function(project_path, file_path):\n    return 1\n".data) ≠
      "def change_function(project_path, file_path):\n    return 1\n".data := by decide

/-- Witness for the amended C9 at a concrete stripped script. -/
theorem normalizer_plain_identity_witness :
    cleanScriptL ("def change_function(project_path, file_path):\n    return 1".data) =
      trimL ("def change_function(project_path, file_path):\n    return 1".data) :=
  (normalizer_plain_identity ("def change_function(project_path, file_path):\n    return 1".data)
    (by decide) (by decide)).1

/-- C1: validation is fail-fast in the fixed checked order.  For every compile
oracle and script, the error reported by `_validate_script` (if any) is exactly
the first violated rule of the ordered checklist; in particular a script
missing the entry-point definition and the required import is reported with
the entry-point violation, never the import violation. -/
theorem validator_first_violation_order (compiles : List Char → Bool) (s : List Char) :
    (validateScript compiles s).map ruleOf = firstViolatedRule compiles s ∧
    (containsSub reqEntry s = false → containsSub reqImport s = false →
      validateScript compiles s = some VErr.missingChangeFunction) := by
  constructor
  · cases h1 : containsSub reqEntry s with
    | false => simp [validateScript, firstViolatedRule, ruleViolatedB, h1, ruleOf]
    | true =>
      cases h2 : containsSub reqSig s with
      | false => simp [validateScript, firstViolatedRule, ruleViolatedB, h1, h2, ruleOf]
      | true =>
        cases h3 : containsSub reqImport s with
        | false => simp [validateScript, firstViolatedRule, ruleViolatedB, h1, h2, h3, ruleOf]
        | true =>
          cases h4 : containsSub reqProject s with
          | false =>
            simp [validateScript, firstViolatedRule, ruleViolatedB, h1, h2, h3, h4, ruleOf]
          | true =>
            cases h5 : containsSub reqResource s with
            | false =>
              simp [validateScript, firstViolatedRule, ruleViolatedB, h1, h2, h3, h4, h5, ruleOf]
            | true =>
              cases h6 : containsSub reqReturn s with
              | false =>
                simp [validateScript, firstViolatedRule, ruleViolatedB,
                  h1, h2, h3, h4, h5, h6, ruleOf]
              | true =>
                cases hf : (findImportsL s).find? (fun m => !(inWhitelist m)) with
                | some m =>
                  simp [validateScript, firstViolatedRule, ruleViolatedB,
                    h1, h2, h3, h4, h5, h6, hf, ruleOf]
                | none =>
                  cases h8 : compiles s with
                  | false =>
                    simp [validateScript, firstViolatedRule, ruleViolatedB,
                      h1, h2, h3, h4, h5, h6, hf, h8, ruleOf]
                  | true =>
                    simp [validateScript, firstViolatedRule, ruleViolatedB,
                      h1, h2, h3, h4, h5, h6, hf, h8, ruleOf]
  · intro he hi
    simp [validateScript, he]

/-- Witness for C1: a script violating both the entry-point rule and
the import rule is reported with the entry-point violation. -/
theorem validator_first_violation_order_witness :
    validateScript (fun _ => true) ("x = 1".data) = some VErr.missingChangeFunction :=
  (validator_first_violation_order (fun _ => true) ("x = 1".data)).2 (by decide) (by decide)

/-- Amended C2.  Only imports written in the `from <module> import ...` form
are screened by rule 7 (the regex is `from\s+(rope\.\S+)\s+import`); plain
`import rope.x` statements are not checked at all.  For every script passing
rules 1-6: if the scan finds a rope `from`-import outside the whitelist,
validation fails with the invalid-import error naming the first such module;
if every scanned module is whitelisted, rule 7 passes and validation can only
fail at the compile step. -/
theorem validator_rope_import_whitelist (compiles : List Char → Bool) (s : List Char)
    (h1 : containsSub reqEntry s = true) (h2 : containsSub reqSig s = true)
    (h3 : containsSub reqImport s = true) (h4 : containsSub reqProject s = true)
    (h5 : containsSub reqResource s = true) (h6 : containsSub reqReturn s = true) :
    (∀ m, (findImportsL s).find? (fun m => !(inWhitelist m)) = some m →
        validateScript compiles s = some (VErr.invalidImport m)) ∧
    ((findImportsL s).find? (fun m => !(inWhitelist m)) = none →
        validateScript compiles s = if compiles s then none else some VErr.syntaxError) := by
  constructor
  · intro m hm
    simp [validateScript, h1, h2, h3, h4, h5, h6, hm]
  · intro hf
    cases h8 : compiles s with
    | false => simp [validateScript, h1, h2, h3, h4, h5, h6, hf, h8]
    | true => simp [validateScript, h1, h2, h3, h4, h5, h6, hf, h8]

/-- Counterexample to C2 as stated: a script that imports the non-whitelisted
module `rope.evil` in the plain `import m` form passes validation (the plain
form is never checked), even though the claim demands an invalid-import
failure for either import form.  The script is syntactically valid Python, so
the compile oracle is instantiated to accept it. -/
theorem validator_rope_import_whitelist_cex :
    validateScript (fun _ => true)
      ("from rope.base.project import Project\nimport rope.evil\n\ndef change_function(project_path, file_path):\n    project = Project(project_path)\n    resource = project.get_resource(file_path)\n    return resource.read()\n".data) = none
    ∧ containsSub ("import rope.evil".data)
      ("from rope.base.project import Project\nimport rope.evil\n\ndef change_function(project_path, file_path):\n    project = Project(project_path)\n    resource = project.get_resource(file_path)\n    return resource.read()\n".data) = true
    ∧ inWhitelist ("rope.evil".data) = false := by decide

/-- Witness for the amended C2: a script with `from rope.evil import X` is
rejected with the invalid-import error naming `rope.evil`. -/
theorem validator_rope_import_whitelist_witness :
    validateScript (fun _ => true)
      ("from rope.base.project import Project\nfrom rope.evil import X\ndef change_function(project_path, file_path):\n    project = Project(project_path)\n    resource = project.get_resource(file_path)\n    return resource.read()\n".data)
      = some (VErr.invalidImport ("rope.evil".data)) :=
  (validator_rope_import_whitelist (fun _ => true)
      ("from rope.base.project import Project\nfrom rope.evil import X\ndef change_function(project_path, file_path):\n    project = Project(project_path)\n    resource = project.get_resource(file_path)\n    return resource.read()\n".data)
      (by decide) (by decide) (by decide) (by decide) (by decide) (by decide)).1
    ("rope.evil".data) (by decide)

/-- In `_execute_rope_script`, every branch ends in the `finally` unlink of
the freshly created transient file, so the filesystem is restored exactly. -/
theorem executeRopeScript_fs {α : Type} (loader : List Char → Except Err (PyModule α))
    (script pp fp tmp : List Char) (cwd : List (List Char)) (fs : List (List Char)) :
    (executeRopeScript loader script pp fp tmp cwd fs).2.1 = fs := by
  unfold executeRopeScript
  cases hl : loader script with
  | error e => simp [List.erase_cons_head]
  | ok m =>
    cases hr : runScriptFunction m pp (getRelativePathL cwd fp pp) with
    | error e => simp [hr, List.erase_cons_head]
    | ok v => simp [hr, List.erase_cons_head]

/-- C3: dispatch probes the two entry-point names in fixed priority order.
If `change_function` is present it is invoked with the project path and the
resolved relative path and its result is returned unchanged; otherwise, if
only `refactor_code` is present, that one is invoked with the same arguments;
otherwise the missing-entry-point error is raised. -/
theorem dispatcher_priority {α : Type} (m : PyModule α) (pp fp : List Char) :
    (∀ f, m.change_function = some f → runScriptFunction m pp fp = f pp fp)
    ∧ (m.change_function = none → ∀ g, m.refactor_code = some g →
        runScriptFunction m pp fp = g pp fp)
    ∧ (m.change_function = none → m.refactor_code = none →
        runScriptFunction m pp fp = .error Err.missingEntryPoint) := by
  refine ⟨?_, ?_, ?_⟩
  · intro f hf
    simp [runScriptFunction, hf]
  · intro hc g hg
    simp [runScriptFunction, hc, hg]
  · intro hc hr
    simp [runScriptFunction, hc, hr]

/-- Witness for C3: with both entry points present the current name wins and
its value is passed through unchanged. -/
theorem dispatcher_priority_witness :
    runScriptFunction (α := List Char)
      ⟨some (fun p f => Except.ok (p ++ f)), some (fun _ _ => Except.ok [])⟩
      ("p".data) ("f.py".data) = Except.ok ("p".data ++ "f.py".data) :=
  (dispatcher_priority ⟨some (fun p f => Except.ok (p ++ f)), some (fun _ _ => Except.ok [])⟩
    ("p".data) ("f.py".data)).1 (fun p f => Except.ok (p ++ f)) rfl

/-- C4: transient filesystem state is removed on every exit path.  The
transient script file is gone after `_execute_rope_script` whatever the
loading and dispatch outcome, and after `generate_code` the staged directory,
its placeholder file and the transient script file are all gone, whatever the
outcome (including a generation failure, in which case they were never
created). -/
theorem transient_cleanup {α : Type} (loader : List Char → Except Err (PyModule α))
    (script pp fp tmp dir : List Char) (cwd : List (List Char)) (fs : List (List Char))
    (gen : Except Err (List Char))
    (htmp : tmp ∉ fs) (hdir : dir ∉ fs)
    (hstaged : dir ++ "/generated_code.py".data ∉ fs)
    (htd : tmp ≠ dir) (hts : tmp ≠ dir ++ "/generated_code.py".data) :
    tmp ∉ (executeRopeScript loader script pp fp tmp cwd fs).2.1
    ∧ dir ∉ (generateCode gen loader dir tmp cwd fs).2.1
    ∧ dir ++ "/generated_code.py".data ∉ (generateCode gen loader dir tmp cwd fs).2.1
    ∧ tmp ∉ (generateCode gen loader dir tmp cwd fs).2.1 := by
  have hsplitg : ("/generated_code.py".data : List Char) = '/' :: "generated_code.py".data := rfl
  have hpfx : ((dir ++ ['/']).isPrefixOf (dir ++ "/generated_code.py".data)) = true := by
    rw [hsplitg, List.append_cons dir '/' ("generated_code.py".data)]
    exact isPrefixOf_append_self _ _
  refine ⟨?_, ?_, ?_, ?_⟩
  · rw [executeRopeScript_fs]
    exact htmp
  · cases gen with
    | error e => simpa [generateCode] using hdir
    | ok script2 =>
      simp only [generateCode, executeRopeScript_fs]
      intro hmem
      rcases List.mem_filter.mp hmem with ⟨-, hkeep⟩
      simp at hkeep
  · cases gen with
    | error e => simpa [generateCode] using hstaged
    | ok script2 =>
      simp only [generateCode, executeRopeScript_fs]
      intro hmem
      rcases List.mem_filter.mp hmem with ⟨-, hkeep⟩
      rw [Bool.and_eq_true] at hkeep
      rw [hpfx] at hkeep
      simp at hkeep
  · cases gen with
    | error e => simpa [generateCode] using htmp
    | ok script2 =>
      simp only [generateCode, executeRopeScript_fs]
      intro hmem
      rcases List.mem_filter.mp hmem with ⟨hin, -⟩
      rcases List.mem_cons.mp hin with h | hin2
      · exact hts h
      rcases List.mem_cons.mp hin2 with h | hin3
      · exact htd h
      exact htmp hin3

/-- Witness for C4 at a concrete invocation. -/
theorem transient_cleanup_witness :
    ("/tmp/s.py".data ∉ (executeRopeScript (α := List Char)
        (fun _ => Except.ok ⟨none, none⟩) ("s".data) ("/p".data) ("f".data)
        ("/tmp/s.py".data) [] []).2.1)
    ∧ ("/tmp/d".data ∉ (generateCode (α := List Char) (Except.ok ("s".data))
        (fun _ => Except.ok ⟨none, none⟩) ("/tmp/d".data) ("/tmp/s.py".data) [] []).2.1)
    ∧ ("/tmp/d".data ++ "/generated_code.py".data ∉
        (generateCode (α := List Char) (Except.ok ("s".data))
          (fun _ => Except.ok ⟨none, none⟩) ("/tmp/d".data) ("/tmp/s.py".data) [] []).2.1)
    ∧ ("/tmp/s.py".data ∉ (generateCode (α := List Char) (Except.ok ("s".data))
        (fun _ => Except.ok ⟨none, none⟩) ("/tmp/d".data) ("/tmp/s.py".data) [] []).2.1) :=
  transient_cleanup (fun _ => Except.ok ⟨none, none⟩) ("s".data) ("/p".data) ("f".data)
    ("/tmp/s.py".data) ("/tmp/d".data) [] [] (Except.ok ("s".data))
    (by simp) (by simp) (by simp) (by decide) (by decide)

/-- C5 evaluation.  Containment-relative resolution works as the claim (and
the repository's own `test_get_relative_path`) states, but for an
already-relative file path and an absolute project root the fallback
`os.path.relpath` resolves against the process working directory: with cwd
`/root/workspace`, `_get_relative_path("file.py", "/home/user/project")`
returns `../../../root/workspace/file.py`, not `file.py`. -/
theorem path_resolution_eval :
    getRelativePathL [] ("/proj/sub/file.py".data) ("/proj".data) = "sub/file.py".data
    ∧ getRelativePathL ["root".data, "workspace".data] ("file.py".data)
        ("/home/user/project".data) = "../../../root/workspace/file.py".data
    ∧ "../../../root/workspace/file.py".data ≠ "file.py".data := by decide

/-- Amended C6.  The legacy normalizer `_extract_script_from_response` maps a
sequence response to its first element (empty string for the empty sequence),
as the claim states; but the active pipeline's normalization in
`_generate_refactoring_script` instead joins the sequence's elements with
newlines, which agrees with the first element only for sequences of length at
most one. -/
theorem normalizer_sequence (x : String) (rest : List String) :
    extractScriptFromResponse (PyResp.listv (x :: rest)) = x.data
    ∧ extractScriptFromResponse (PyResp.listv []) = []
    ∧ ensureString (PyResp.listv []) = []
    ∧ ensureString (PyResp.listv [x]) = x.data
    ∧ (rest ≠ [] → ensureString (PyResp.listv (x :: rest)) ≠ x.data) := by
  refine ⟨rfl, rfl, rfl, rfl, ?_⟩
  intro hne hEq
  cases rest with
  | nil => exact hne rfl
  | cons y ys =>
    have hlen := congrArg List.length hEq
    simp only [ensureString, List.map, pyJoin, List.length_append, List.length_cons,
      List.length_nil] at hlen
    omega

/-- Counterexample to C6 as stated: on the sequence response `["a", "b"]` the
pipeline's normalizer produces the newline-join `"a\nb"`, not the first
element `"a"` (which is what the legacy normalizer returns). -/
theorem normalizer_sequence_cex :
    ensureString (PyResp.listv ["a", "b"]) = "a\nb".data
    ∧ ensureString (PyResp.listv ["a", "b"]) ≠ "a".data
    ∧ extractScriptFromResponse (PyResp.listv ["a", "b"]) = "a".data := by decide

/-- Witness for the amended C6 at the sequence `["a", "b"]`. -/
theorem normalizer_sequence_witness :
    extractScriptFromResponse (PyResp.listv ["a", "b"]) = "a".data
    ∧ ensureString (PyResp.listv ("a" :: ["b"])) ≠ "a".data :=
  ⟨(normalizer_sequence "a" ["b"]).1,
   (normalizer_sequence "a" ["b"]).2.2.2.2 (by decide)⟩

/-- Amended C8.  The pipeline performs no retry and no silent recovery, and a
generation or validation failure propagates unmodified from `modify_file`;
but failures inside the script-execution step do not reach the caller as
their own kind: `_execute_rope_script`'s generic handler catches them and
re-raises the execution error naming the transient file with the inner error
embedded.  In particular a missing-entry-point failure reaches the caller of
`modify_file` as the execution wrapper around the missing-entry-point error,
not as the missing-entry-point kind itself. -/
theorem error_propagation {α : Type} (gen : Except Err (List Char))
    (loader : List Char → Except Err (PyModule α)) (fp : List Char)
    (ppOpt : Option (List Char)) (tmp : List Char) (cwd : List (List Char))
    (fs : List (List Char)) (e : Err) (script : List Char) (m : PyModule α) :
    (gen = .error e → (modifyFile gen loader fp ppOpt tmp cwd fs).1 = .error e)
    ∧ (gen = .ok script → loader script = .ok m →
       m.change_function = none → m.refactor_code = none →
       (modifyFile gen loader fp ppOpt tmp cwd fs).1
         = .error (.execWrapped tmp .missingEntryPoint)) := by
  constructor
  · rintro rfl
    simp [modifyFile]
  · rintro rfl hl hc hr
    simp [modifyFile, executeRopeScript, hl, runScriptFunction, hc, hr]

/-- Counterexample to C8 as stated: a loaded module exposing neither entry
point makes `modify_file` raise the execution-error wrapper naming the
transient file, which embeds but is distinct from the missing-entry-point
error kind. -/
theorem error_propagation_cex :
    (modifyFile (α := List Char) (Except.ok ("s".data))
        (fun _ => Except.ok ⟨none, none⟩) ("f.py".data) none ("/tmp/s.py".data) [] []).1
      = Except.error (Err.execWrapped ("/tmp/s.py".data) Err.missingEntryPoint)
    ∧ Err.execWrapped ("/tmp/s.py".data) Err.missingEntryPoint ≠ Err.missingEntryPoint :=
  ⟨rfl, by decide⟩

/-- Witness for the amended C8: both branches at concrete inputs. -/
theorem error_propagation_witness :
    (modifyFile (α := List Char) (Except.error (Err.validation VErr.missingChangeFunction))
        (fun _ => Except.ok ⟨none, none⟩) ("g.py".data) none ("/tmp/t.py".data) [] []).1
      = Except.error (Err.validation VErr.missingChangeFunction) :=
  (error_propagation (Except.error (Err.validation VErr.missingChangeFunction))
    (fun _ => Except.ok ⟨none, none⟩) ("g.py".data) none ("/tmp/t.py".data) [] []
    (Err.validation VErr.missingChangeFunction) ("s".data) ⟨none, none⟩).1 rfl

/-- C10: validation precedes persistence.  When the generated script fails
the structural contract or does not compile, the generator raises before
returning, so `modify_file` propagates that error having performed no
filesystem effect other than reading the target file, and `generate_code`
propagates it having performed no filesystem effect at all: no transient
script file, no module load, no staged directory, and the filesystem is
unchanged. -/
theorem generation_atomicity {α : Type} (compiles : List Char → Bool) (raw : PyResp)
    (loader : List Char → Except Err (PyModule α)) (fp : List Char)
    (ppOpt : Option (List Char)) (tmp dir : List Char) (cwd : List (List Char))
    (fs : List (List Char)) (e : VErr)
    (hval : validateScript compiles (cleanScriptL (ensureString raw)) = some e) :
    modifyFile (ropeScriptGeneratorCall compiles raw) loader fp ppOpt tmp cwd fs
      = (.error (.validation e), fs, [FsEff.read fp])
    ∧ generateCode (ropeScriptGeneratorCall compiles raw) loader dir tmp cwd fs
      = (.error (.validation e), fs, []) := by
  have hgen : ropeScriptGeneratorCall compiles raw = .error (.validation e) := by
    simp [ropeScriptGeneratorCall, hval]
  constructor
  · simp [modifyFile, hgen]
  · simp [generateCode, hgen]

/-- Witness for C10: an invalid one-character response is rejected by the
validator and neither orchestrator operation touches the filesystem. -/
theorem generation_atomicity_witness :
    modifyFile (α := List Char) (ropeScriptGeneratorCall (fun _ => true) (PyResp.strv "x"))
        (fun _ => Except.ok ⟨none, none⟩) ("f.py".data) none ("/tmp/s.py".data) [] []
      = (Except.error (Err.validation VErr.missingChangeFunction), [],
         [FsEff.read ("f.py".data)]) :=
  (generation_atomicity (fun _ => true) (PyResp.strv "x")
    (fun _ => Except.ok ⟨none, none⟩) ("f.py".data) none ("/tmp/s.py".data)
    ("/tmp/d".data) [] [] VErr.missingChangeFunction (by decide)).1
